import Mathlib

/-!
# Verification of the HDF5-to-columnar transcoding engine

A shallow embedding of `src/lib.rs`: the type-descriptor data model, the
schema projector (`iter_dtype`), the projection resolver (`project_dtype`),
the field decoder (`fill`), and the row cursor (`Hdf5ReadBindData.fill` /
`Hdf5Read.func`).  Machine memory is modelled as a finite list of bytes
(`List Nat`); pointers stored inside variable-length headers are absolute
indices into that list, multi-byte header fields are little-endian (the
native order of the extension's 64-bit targets).  The DuckDB columnar sink
is modelled by a trace of `SinkEffect`s recording the calls the decoder
makes on the `DataChunkHandle`.
-/

namespace Hdf5Duck

/-- `hdf5::types::IntSize`: the byte width of an integer scalar type. -/
inductive IntSize where
  | U1 | U2 | U4 | U8
deriving DecidableEq, Repr

/-- Numeric value of an `IntSize` (the `as usize` cast in the source). -/
def IntSize.bytes : IntSize → Nat
  | .U1 => 1
  | .U2 => 2
  | .U4 => 4
  | .U8 => 8

/-- `hdf5::types::FloatSize`. -/
inductive FloatSize where
  | U4 | U8
deriving DecidableEq, Repr

def FloatSize.bytes : FloatSize → Nat
  | .U4 => 4
  | .U8 => 8

/-- `hdf5::types::TypeDescriptor`.  A compound field is the triple
`(name, ty, offset)` of `hdf5::types::CompoundField`; `Compound` also
stores the compound's total byte size.  `Enum` stores the `size` and
`signed` fields of `hdf5::types::EnumType` (the member list is never
consulted by the code under verification and is omitted).  `Reference`
stores the byte size of the reference token. -/
inductive TypeDescriptor where
  | Integer (size : IntSize)
  | Unsigned (size : IntSize)
  | Float (size : FloatSize)
  | Boolean
  | Enum (size : IntSize) (signed : Bool)
  | Compound (fields : List (String × TypeDescriptor × Nat)) (size : Nat)
  | FixedArray (ty : TypeDescriptor) (len : Nat)
  | VarLenArray (ty : TypeDescriptor)
  | FixedAscii (len : Nat)
  | FixedUnicode (len : Nat)
  | VarLenAscii
  | VarLenUnicode
  | Reference (size : Nat)

/-- Accessors for a compound field triple, mirroring `CompoundField`. -/
abbrev CompoundField := String × TypeDescriptor × Nat

def CompoundField.name (f : CompoundField) : String := f.1

def CompoundField.ty (f : CompoundField) : TypeDescriptor := f.2.1

def CompoundField.offset (f : CompoundField) : Nat := f.2.2

/-- `EnumType::base_type()` from the hdf5 crate: a signed enum is based on
`Integer(size)`, an unsigned one on `Unsigned(size)`. -/
def baseType (size : IntSize) (signed : Bool) : TypeDescriptor :=
  if signed then .Integer size else .Unsigned size

/-- `TypeDescriptor::size()` from the hdf5 crate: the in-line byte size of
one instance.  On the 64-bit target of this extension `hvl_t` is 16 bytes
and a raw pointer is 8 bytes. -/
def TypeDescriptor.size : TypeDescriptor → Nat
  | .Integer s => s.bytes
  | .Unsigned s => s.bytes
  | .Float s => s.bytes
  | .Boolean => 1
  | .Enum s _ => s.bytes
  | .Compound _ sz => sz
  | .FixedArray ty len => ty.size * len
  | .FixedAscii len => len
  | .FixedUnicode len => len
  | .VarLenArray _ => 16
  | .VarLenAscii => 8
  | .VarLenUnicode => 8
  | .Reference sz => sz

/-- The DuckDB logical types produced by `iter_dtype`
(`duckdb::core::LogicalTypeId` plus the composite struct/array/list
handles built by `LogicalTypeHandle`). -/
inductive LogicalType where
  | Tinyint | Smallint | Integer | Bigint
  | UTinyint | USmallint | UInteger | UBigint
  | Float | Double | Boolean | Varchar | Blob
  | Struct (fields : List (String × LogicalType))
  | Array (inner : LogicalType) (len : Nat)
  | List (inner : LogicalType)

/-- The column name used for every non-compound top-level value
(`RESULT_COLNAME` in the source). -/
def RESULT_COLNAME : String := "result"

/-- The `Integer` arm of `iter_dtype`, also reached through
`Enum(e) => iter_dtype(&e.base_type())` when the enum is signed. -/
def intCols (s : IntSize) : List (String × LogicalType) :=
  [(RESULT_COLNAME,
    match s with
    | .U1 => .Tinyint
    | .U2 => .Smallint
    | .U4 => .Integer
    | .U8 => .Bigint)]

/-- The `Unsigned` arm of `iter_dtype`, also reached through
`Enum(e) => iter_dtype(&e.base_type())` when the enum is unsigned. -/
def uintCols (s : IntSize) : List (String × LogicalType) :=
  [(RESULT_COLNAME,
    match s with
    | .U1 => .UTinyint
    | .U2 => .USmallint
    | .U4 => .UInteger
    | .U8 => .UBigint)]

/-- The `iter_dtype(ty)[0].1` indexing used by the array arms.  The source
panics when the nested projection is empty (a zero-field compound);
`headD` supplies a default on that panic path, which no claim exercises. -/
def headType (cols : List (String × LogicalType)) : LogicalType :=
  (cols.headD (RESULT_COLNAME, .Boolean)).2

/-- The loop body of the `Compound` arm of `iter_dtype`: a field whose
nested projection yields more than one column is wrapped in
`LogicalTypeHandle::struct_type` of those (name, type) pairs, otherwise
the single type is used bare (`types.into_iter().next().unwrap()`; the
source panics when the nested projection is empty, `headType`'s default
stands in for that path). -/
def fieldLogicalType (cols : List (String × LogicalType)) : LogicalType :=
  if cols.length > 1 then .Struct cols else headType cols

mutual

/-- `iter_dtype` from `src/lib.rs`: the schema projector mapping a type
descriptor to the ordered list of (column name, logical type) pairs.
The `Enum` arm is `iter_dtype(&e.base_type())` in the source; since
`base_type()` returns `Integer(size)` or `Unsigned(size)` the call is
inlined through `intCols`/`uintCols` (the same functions the `Integer`
and `Unsigned` arms use) to keep the recursion structural — the equation
`iter_dtype (baseType s b) = iter_dtype (.Enum s b)` is proved below. -/
def iter_dtype : TypeDescriptor → List (String × LogicalType)
  | .Integer s => intCols s
  | .Unsigned s => uintCols s
  | .Float s =>
      [(RESULT_COLNAME,
        match s with
        | .U4 => .Float
        | .U8 => .Double)]
  | .Boolean => [(RESULT_COLNAME, .Boolean)]
  | .Enum s signed => if signed then intCols s else uintCols s
  | .Compound fields _ => iterFields fields
  | .FixedArray ty len => [(RESULT_COLNAME, .Array (headType (iter_dtype ty)) len)]
  | .VarLenArray ty => [(RESULT_COLNAME, .List (headType (iter_dtype ty)))]
  | .FixedAscii _ => [(RESULT_COLNAME, .Varchar)]
  | .FixedUnicode _ => [(RESULT_COLNAME, .Varchar)]
  | .VarLenAscii => [(RESULT_COLNAME, .Varchar)]
  | .VarLenUnicode => [(RESULT_COLNAME, .Varchar)]
  | .Reference _ => [(RESULT_COLNAME, .Blob)]

/-- The field loop of `iter_dtype`'s `Compound` arm: each field becomes
one column named after the field. -/
def iterFields : List CompoundField → List (String × LogicalType)
  | [] => []
  | (name, ty, _) :: fs => (name, fieldLogicalType (iter_dtype ty)) :: iterFields fs

end

/-! ## The field decoder and its sink model -/

/-- The Rust scalar type a `fill_vec!` invocation reinterprets bytes as. -/
inductive ScalarTy where
  | i8 | i16 | i32 | i64
  | u8 | u16 | u32 | u64
  | f32 | f64 | bool
deriving DecidableEq, Repr

/-- One call the decoder makes on the columnar sink
(`DataChunkHandle`).  `writeScalar col ty slot bytes` models
`output.flat_vector(col).as_mut_slice::<ty>()[slot] = read_unaligned(bytes)`;
`arrayChild` / `listChild` model `array_vector(col).set_child(bytes)` /
`list_vector(col).set_child(bytes)`; `insertBlob col slot bytes` models
`flat_vector(col).insert(slot, bytes)`; `setLen n` models
`output.set_len(n)`. -/
inductive SinkEffect where
  | writeScalar (col : Nat) (ty : ScalarTy) (slot : Nat) (bytes : List Nat)
  | arrayChild (col : Nat) (bytes : List Nat)
  | listChild (col : Nat) (bytes : List Nat)
  | insertBlob (col : Nat) (slot : Nat) (bytes : List Nat)
  | setLen (n : Nat)
deriving DecidableEq, Repr

/-- The `n` bytes of memory starting at absolute index `base` (a Rust
sub-slice; the source panics where this would run past the end, a path no
claim exercises — `take` truncates there). -/
def readBytes (mem : List Nat) (base n : Nat) : List Nat :=
  (mem.drop base).take n

/-- Little-endian value of a byte list (the native byte order of the
extension's targets), used to read the `usize` fields of variable-length
headers. -/
def leVal : List Nat → Nat
  | [] => 0
  | b :: bs => b % 256 + 256 * leVal bs

/-- `VarLenAscii::as_bytes` / `VarLenUnicode::as_bytes` from the hdf5
crate: the bytes at the pointed-to address up to (excluding) the first
NUL terminator. -/
def cstrBytes (mem : List Nat) (ptr : Nat) : List Nat :=
  (mem.drop ptr).takeWhile (fun b => b ≠ 0)

/-- The `ScalarTy` of `fill`'s `Integer` arms. -/
def intScalarTy : IntSize → ScalarTy
  | .U1 => .i8
  | .U2 => .i16
  | .U4 => .i32
  | .U8 => .i64

/-- The `ScalarTy` of `fill`'s `Unsigned` arms. -/
def uintScalarTy : IntSize → ScalarTy
  | .U1 => .u8
  | .U2 => .u16
  | .U4 => .u32
  | .U8 => .u64

/-- The `len` field of an `hvl_t` header: the leading `usize` (8 bytes,
native little-endian) of the in-line value. -/
def hvlLen (mem : List Nat) (base : Nat) : Nat :=
  leVal (readBytes mem base 8)

/-- The pointer stored in a `VarLenAscii`/`VarLenUnicode` value (a bare
`*const u8`, 8 bytes), and the `p` field of an `hvl_t` sits at offset 8. -/
def vlStrPtr (mem : List Nat) (base : Nat) : Nat :=
  leVal (readBytes mem base 8)

/-- The `p` (payload pointer) field of an `hvl_t` header, at byte offset 8. -/
def hvlPtr (mem : List Nat) (base : Nat) : Nat :=
  leVal (readBytes mem (base + 8) 8)

mutual

/-- `fill` from `src/lib.rs`: the field decoder.  `mem` is the byte
memory, `base` the absolute index of the value's first byte (the source
passes the sub-slice `&slice[f.offset..]`, which is the same thing
relative to the record), `idx` the destination column.  The `Enum` arm is
`fill(&e.base_type(), slice, output, idx)` in the source; as `base_type()`
is `Integer(size)`/`Unsigned(size)` the call is inlined through the same
scalar write both those arms perform, keeping the recursion structural —
the equation with `baseType` is proved below.  Note the `VarLenArray` arm:
the source reads `array.len()` from the `hvl_t` header but then passes
`&slice[..array.len() * ty.size()]`, bytes starting at the value's base
(the header itself), not the bytes behind the header's payload pointer;
the embedding reproduces that literally. -/
def fill (dtype : TypeDescriptor) (mem : List Nat) (base : Nat) (idx : Nat) :
    List SinkEffect :=
  match dtype with
  | .Integer s => [.writeScalar idx (intScalarTy s) 0 (readBytes mem base s.bytes)]
  | .Unsigned s => [.writeScalar idx (uintScalarTy s) 0 (readBytes mem base s.bytes)]
  | .Float .U4 => [.writeScalar idx .f32 0 (readBytes mem base 4)]
  | .Float .U8 => [.writeScalar idx .f64 0 (readBytes mem base 8)]
  | .Boolean => [.writeScalar idx .bool 0 (readBytes mem base 1)]
  | .Enum s signed =>
      [.writeScalar idx (if signed then intScalarTy s else uintScalarTy s) 0
        (readBytes mem base s.bytes)]
  | .Compound fields _ => fillFields fields mem base idx 0
  | .FixedArray ty len => [.arrayChild idx (readBytes mem base (len * ty.size))]
  | .VarLenArray ty => [.listChild idx (readBytes mem base (hvlLen mem base * ty.size))]
  | .FixedAscii len => [.arrayChild idx (readBytes mem base len)]
  | .FixedUnicode len => [.arrayChild idx (readBytes mem base len)]
  | .VarLenAscii => [.listChild idx (cstrBytes mem (vlStrPtr mem base))]
  | .VarLenUnicode => [.listChild idx (cstrBytes mem (vlStrPtr mem base))]
  | .Reference sz => [.insertBlob idx 0 (readBytes mem base sz)]

/-- The `for (i, f) in c.fields.iter().enumerate()` loop of `fill`'s
`Compound` arm: field `i` decodes at `slice[f.offset..]` into column
`idx + i`. -/
def fillFields : List CompoundField → List Nat → Nat → Nat → Nat → List SinkEffect
  | [], _, _, _, _ => []
  | (_, ty, off) :: fs, mem, base, idx, i =>
      fill ty mem (base + off) (idx + i) ++ fillFields fs mem base idx (i + 1)

end

/-! ## Bind data, projection resolver and row cursor -/

/-- `Hdf5ReadBindData`: the dataset's type descriptor and its raw bytes
(read once at bind time). -/
structure Hdf5ReadBindData where
  dtype : TypeDescriptor
  data : List Nat

/-- `Hdf5ReadBindData::project_dtype`: the projection resolver.  For a
compound, the new field list is `c.fields[i]` for each requested index in
order (the source indexes unchecked and panics out of bounds; `getD`'s
default stands in for that path, which no claim exercises), and the
original compound `size` is kept.  Any other descriptor is returned
unchanged (`self.dtype.clone()`). -/
def Hdf5ReadBindData.project_dtype (self : Hdf5ReadBindData) (indices : List Nat) :
    TypeDescriptor :=
  match self.dtype with
  | .Compound c sz => .Compound (indices.map (fun i => c.getD i ("", .Boolean, 0))) sz
  | d => d

/-- `Hdf5ReadBindData::fill`: one cursor step.  `item_size` is the size of
the ORIGINAL descriptor `self.dtype` (not of the possibly projected
`dtype` argument); past the end the chunk length is set to 0, otherwise
the record slice at `index * item_size` is decoded and the length set
to 1. -/
def Hdf5ReadBindData.fill (self : Hdf5ReadBindData) (index : Nat)
    (dtype : TypeDescriptor) : List SinkEffect :=
  let item_size := self.dtype.size
  if self.data.length ≤ index * item_size then [.setLen 0]
  else Hdf5Duck.fill dtype self.data (index * item_size) 0 ++ [.setLen 1]

/-- `Hdf5ReadInitData`: the scan state — the shared position counter
(an `AtomicUsize` in the source) and the projected descriptor. -/
structure Hdf5ReadInitData where
  index : Nat
  dtype : TypeDescriptor

/-- `Hdf5ReadInitData::new`. -/
def Hdf5ReadInitData.new (dtype : TypeDescriptor) : Hdf5ReadInitData :=
  ⟨0, dtype⟩

/-- `Hdf5Read::func`, sequential view: `index.fetch_add(1)` hands the
current counter value to this call and leaves the counter incremented;
the call then runs `bind_data.fill(index, &init_data.dtype, output)`.
Returns the successor state and the sink-effect trace of the call. -/
def Hdf5Read.func (bind : Hdf5ReadBindData) (init : Hdf5ReadInitData) :
    Hdf5ReadInitData × List SinkEffect :=
  (⟨init.index + 1, init.dtype⟩, bind.fill init.index init.dtype)

/-- The chunk length after a call: the argument of the last `set_len`
effect in the trace (0 when none occurs). -/
def rowCount (es : List SinkEffect) : Nat :=
  es.foldl (fun acc e => match e with | .setLen n => n | _ => acc) 0

/-- The scan state after `k` further calls of `Hdf5Read.func` from state
`s` (sequential view of the counter). -/
def funcIter (bind : Hdf5ReadBindData) (s : Hdf5ReadInitData) : Nat → Hdf5ReadInitData
  | 0 => s
  | k + 1 => (Hdf5Read.func bind (funcIter bind s k)).1

/-- Linearized model of the shared `AtomicUsize`: because `fetch_add(1)`
is atomic, the `k`-th fetch-and-add in the linearization order receives
the counter value `k`, whatever worker performs it.  `fetchAddValues m`
is the list of values handed out by `m` such operations starting from 0. -/
def fetchAddValues (m : Nat) : List Nat :=
  List.range m

/-- An interleaving of worker threads is the linearization order of their
fetch-and-add operations: `ws` lists, per linearized operation, the id of
the worker that performed it.  `workerCalls ws w` is the list of counter
values (record indices) worker `w` received under that interleaving. -/
def workerCalls (ws : List Nat) (w : Nat) : List Nat :=
  (List.range ws.length).filter (fun k => ws.getD k 0 == w)

/-- Value of the bytes a `fill_vec!(…, u32)` (or any unsigned) write put
in the sink, native little-endian. -/
def uintVal (bs : List Nat) : Nat :=
  leVal bs

/-- Value of the byte a `fill_vec!(…, bool)` write put in the sink
(a Rust `bool` is the byte 1 for `true`, 0 for `false`). -/
def boolVal (bs : List Nat) : Bool :=
  bs.headD 0 == 1

/-- The effects the field decoder is allowed to emit: scalar and blob
writes target row slot 0 and the decoder itself never calls `set_len`. -/
def benignEffect : SinkEffect → Prop
  | .writeScalar _ _ slot _ => slot = 0
  | .insertBlob _ slot _ => slot = 0
  | .setLen _ => False
  | _ => True

/-- The round-trip scenario: a buffer of two stride-8 records of
`Compound{id: uint32 @0, flag: bool @4}` holding (1, true) then
(2, false), with 3 bytes of padding per record. -/
def roundTripBind : Hdf5ReadBindData :=
  ⟨.Compound [("id", .Unsigned .U4, 0), ("flag", .Boolean, 4)] 8,
    [1, 0, 0, 0, 1, 0, 0, 0, 2, 0, 0, 0, 0, 0, 0, 0]⟩

/-- Memory holding one variable-length-array value at address 0: the
`hvl_t` header has `len = 2` (bytes 0–7) and payload pointer 20
(bytes 8–15); the two payload bytes `[7, 9]` live at address 20. -/
def vlArrayMem : List Nat :=
  [2, 0, 0, 0, 0, 0, 0, 0, 20, 0, 0, 0, 0, 0, 0, 0, 0, 0, 0, 0, 7, 9]

/-! ## Helper lemmas -/

theorem rowCount_append_setLen (es : List SinkEffect) (n : Nat) :
    rowCount (es ++ [.setLen n]) = n := by
  simp [rowCount, List.foldl_append]

/-- The number of rows a cursor step reports depends only on the position,
the buffer length and the ORIGINAL descriptor's size, never on the
descriptor passed for decoding. -/
theorem rowCount_fill (self : Hdf5ReadBindData) (p : Nat) (dt : TypeDescriptor) :
    rowCount (self.fill p dt)
      = if self.data.length ≤ p * self.dtype.size then 0 else 1 := by
  simp only [Hdf5ReadBindData.fill]
  split
  · rfl
  · rw [rowCount_append_setLen]

theorem iterFields_append (xs ys : List CompoundField) :
    iterFields (xs ++ ys) = iterFields xs ++ iterFields ys := by
  induction xs with
  | nil => rfl
  | cons f fs ih =>
      obtain ⟨nm, ty, off⟩ := f
      simp [iterFields, ih]

theorem sum_range_indicator (N m : Nat) :
    ((List.range m).map (fun k => if k < N then 1 else 0)).sum = min m N := by
  induction m with
  | zero => simp
  | succ m ih =>
      rw [List.range_succ, List.map_append, List.sum_append, ih]
      by_cases h : m < N <;> simp [h] <;> omega

theorem funcIter_index (bind : Hdf5ReadBindData) (s : Hdf5ReadInitData) (k : Nat) :
    (funcIter bind s k).index = s.index + k ∧ (funcIter bind s k).dtype = s.dtype := by
  induction k with
  | zero => simp [funcIter]
  | succ k ih => simp [funcIter, Hdf5Read.func, ih.1, ih.2, Nat.add_assoc]

mutual

theorem fill_benign : ∀ (d : TypeDescriptor) (mem : List Nat) (base idx : Nat),
    ∀ e ∈ fill d mem base idx, benignEffect e
  | .Integer _, _, _, _
  | .Unsigned _, _, _, _ => by simp [fill, benignEffect]
  | .Float s, _, _, _ => by cases s <;> simp [fill, benignEffect]
  | .Boolean, _, _, _ => by simp [fill, benignEffect]
  | .Enum _ _, _, _, _ => by simp [fill, benignEffect]
  | .Compound fs _, mem, base, idx => by
      simpa [fill] using fillFields_benign fs mem base idx 0
  | .FixedArray _ _, _, _, _
  | .VarLenArray _, _, _, _
  | .FixedAscii _, _, _, _
  | .FixedUnicode _, _, _, _
  | .VarLenAscii, _, _, _
  | .VarLenUnicode, _, _, _
  | .Reference _, _, _, _ => by simp [fill, benignEffect]

theorem fillFields_benign : ∀ (fs : List CompoundField) (mem : List Nat) (base idx i : Nat),
    ∀ e ∈ fillFields fs mem base idx i, benignEffect e
  | [], _, _, _, _ => by simp [fillFields]
  | (nm, ty, off) :: fs, mem, base, idx, i => by
      intro e he
      rw [fillFields, List.mem_append] at he
      rcases he with he | he
      · exact fill_benign ty mem (base + off) (idx + i) e he
      · exact fillFields_benign fs mem base idx (i + 1) e he

end

/-! ## Claims -/

/-- C1: projecting `Compound{a: int32, b: Compound{x: int8, y: int8}}`
(any offsets and sizes) yields exactly the ordered columns
`[a: int32, b: struct{x: int8, y: int8}]` — the top-level fields become
sibling columns while the nested compound `b` stays one struct column and
`x`, `y` are not promoted to the top level. -/
theorem c1_flattening (oa ob ox oy szI szO : Nat) :
    iter_dtype (.Compound [("a", .Integer .U4, oa),
        ("b", .Compound [("x", .Integer .U1, ox), ("y", .Integer .U1, oy)] szI, ob)] szO)
      = [("a", .Integer), ("b", .Struct [("x", .Tinyint), ("y", .Tinyint)])] := by
  rfl

/-- C2: on a compound descriptor, `project_dtype` returns a compound with
exactly the fields at the requested indices, in request order, each kept
verbatim (name, nested type and byte offset), and with the original
overall byte size; on any non-compound descriptor it returns the
descriptor unchanged.  (Mutation is unrepresentable in this pure
embedding: the original descriptor value is untouched.) -/
theorem c2_project_columns :
    (∀ (fs : List CompoundField) (sz : Nat) (data : List Nat) (I : List Nat),
      (∀ i ∈ I, i < fs.length) →
      ∃ fs2, Hdf5ReadBindData.project_dtype ⟨.Compound fs sz, data⟩ I
          = .Compound fs2 sz ∧
        fs2.length = I.length ∧
        ∀ j, j < I.length →
          fs2.getD j ("", .Boolean, 0) = fs.getD (I.getD j 0) ("", .Boolean, 0)) ∧
    (∀ (d : TypeDescriptor) (data : List Nat) (I : List Nat),
      (∀ fs sz, d ≠ .Compound fs sz) →
      Hdf5ReadBindData.project_dtype ⟨d, data⟩ I = d) := by
  constructor
  · intro fs sz data I hI
    refine ⟨I.map (fun i => fs.getD i ("", .Boolean, 0)), rfl, by simp, ?_⟩
    intro j hj
    simp [List.getD_eq_getElem?_getD, List.getElem?_map, List.getElem?_eq_getElem hj]
  · intro d data I hd
    cases d <;> first | rfl | exact absurd rfl (hd _ _)

theorem c2_witness :
    (∃ fs2, Hdf5ReadBindData.project_dtype
        ⟨.Compound [("a", .Integer .U4, 0), ("b", .Boolean, 4), ("c", .Integer .U2, 8)] 12,
          []⟩ [0, 2]
        = .Compound fs2 12 ∧
      fs2.length = [0, 2].length ∧
      ∀ j, j < [0, 2].length →
        fs2.getD j ("", .Boolean, 0)
          = [("a", TypeDescriptor.Integer .U4, 0), ("b", .Boolean, 4),
              ("c", .Integer .U2, 8)].getD ([0, 2].getD j 0) ("", .Boolean, 0)) ∧
    Hdf5ReadBindData.project_dtype ⟨.Boolean, []⟩ [0] = .Boolean := by
  refine ⟨c2_project_columns.1 _ 12 [] [0, 2] (by decide),
    c2_project_columns.2 .Boolean [] [0] ?_⟩
  intro fs sz h
  exact TypeDescriptor.noConfusion h

/-- C7: an enumeration descriptor projects to exactly the column list of
its base type, and decodes any value exactly as its base type does
(identical sink-effect trace at the same column). -/
theorem c7_enum_base_equivalence (s : IntSize) (b : Bool) (mem : List Nat)
    (base idx : Nat) :
    iter_dtype (.Enum s b) = iter_dtype (baseType s b) ∧
    fill (.Enum s b) mem base idx = fill (baseType s b) mem base idx := by
  cases b <;> exact ⟨rfl, rfl⟩

/-- C10: a compound field whose nested compound has exactly one field is
not wrapped in a struct: it becomes a single column carrying the outer
field's name and the inner field's mapped type (the inner name is
dropped); struct wrapping (`fieldLogicalType = Struct`) happens only when
the nested projection has more than one column. -/
theorem c10_singleton_nested (pre post : List CompoundField) (nm gnm : String)
    (gty : TypeDescriptor) (goff off szI szO : Nat) :
    iter_dtype (.Compound (pre ++ (nm, .Compound [(gnm, gty, goff)] szI, off) :: post) szO)
      = iterFields pre ++ (nm, fieldLogicalType (iter_dtype gty)) :: iterFields post ∧
    (∀ cols : List (String × LogicalType), 1 < cols.length →
      fieldLogicalType cols = .Struct cols) := by
  constructor
  · show iterFields _ = _
    rw [iterFields_append]
    simp [iterFields, fieldLogicalType, headType, iter_dtype]
  · intro cols h
    simp [fieldLogicalType, h]

/-- C3: a cursor step at position `p` over a compound of declared size
`sz` reports zero rows exactly when `p * sz` reaches the buffer length
and otherwise decodes the record based at byte `p * sz` — the stride is
the declared compound size even when the fields occupy fewer bytes
(`fs` is arbitrary here, e.g. fields ending at byte 8 of a size-12
compound still advance 12 bytes per record); projection preserves that
size, and the rows reported never depend on the descriptor passed for
decoding. -/
theorem c3_cursor_stride (fs : List CompoundField) (sz : Nat) (data : List Nat)
    (dt : TypeDescriptor) (p : Nat) :
    (data.length ≤ p * sz →
      Hdf5ReadBindData.fill ⟨.Compound fs sz, data⟩ p dt = [.setLen 0]) ∧
    (p * sz < data.length →
      Hdf5ReadBindData.fill ⟨.Compound fs sz, data⟩ p dt
        = fill dt data (p * sz) 0 ++ [.setLen 1]) ∧
    (∀ I, (Hdf5ReadBindData.project_dtype ⟨.Compound fs sz, data⟩ I).size = sz) ∧
    (∀ dt2, rowCount (Hdf5ReadBindData.fill ⟨.Compound fs sz, data⟩ p dt2)
      = rowCount (Hdf5ReadBindData.fill ⟨.Compound fs sz, data⟩ p dt)) := by
  refine ⟨?_, ?_, fun I => rfl, fun dt2 => by rw [rowCount_fill, rowCount_fill]⟩
  · intro h
    simp only [Hdf5ReadBindData.fill, TypeDescriptor.size]
    rw [if_pos h]
  · intro h
    simp only [Hdf5ReadBindData.fill, TypeDescriptor.size]
    rw [if_neg (Nat.not_le.2 h)]

theorem c3_witness :
    Hdf5ReadBindData.fill
        ⟨.Compound [("a", .Unsigned .U4, 0), ("b", .Unsigned .U4, 4)] 12,
          List.replicate 24 0⟩ 2
        (.Compound [("a", .Unsigned .U4, 0), ("b", .Unsigned .U4, 4)] 12)
      = [.setLen 0] ∧
    Hdf5ReadBindData.fill
        ⟨.Compound [("a", .Unsigned .U4, 0), ("b", .Unsigned .U4, 4)] 12,
          List.replicate 24 0⟩ 1
        (.Compound [("a", .Unsigned .U4, 0), ("b", .Unsigned .U4, 4)] 12)
      = fill (.Compound [("a", .Unsigned .U4, 0), ("b", .Unsigned .U4, 4)] 12)
          (List.replicate 24 0) (1 * 12) 0 ++ [.setLen 1] ∧
    (Hdf5ReadBindData.project_dtype
        ⟨.Compound [("a", .Unsigned .U4, 0), ("b", .Unsigned .U4, 4)] 12,
          List.replicate 24 0⟩ [0]).size = 12 :=
  ⟨(c3_cursor_stride [("a", .Unsigned .U4, 0), ("b", .Unsigned .U4, 4)] 12
      (List.replicate 24 0) (.Compound [("a", .Unsigned .U4, 0), ("b", .Unsigned .U4, 4)] 12)
      2).1 (by decide),
   (c3_cursor_stride [("a", .Unsigned .U4, 0), ("b", .Unsigned .U4, 4)] 12
      (List.replicate 24 0) (.Compound [("a", .Unsigned .U4, 0), ("b", .Unsigned .U4, 4)] 12)
      1).2.1 (by decide),
   (c3_cursor_stride [("a", .Unsigned .U4, 0), ("b", .Unsigned .U4, 4)] 12
      (List.replicate 24 0) (.Compound [("a", .Unsigned .U4, 0), ("b", .Unsigned .U4, 4)] 12)
      1).2.2.1 [0]⟩

/-- C4: evaluation of the decoder at the failing input.  For the
variable-length array value described by `vlArrayMem` the decoder hands
the sink the two bytes at the value's base — `[2, 0]`, the start of the
`hvl_t` header itself — although the header's length is 2, its payload
pointer is 20 and the payload bytes there are `[7, 9]`: the payload is
NOT addressed through the header's locator, contradicting the claim. -/
theorem c4_varlen_payload_bug :
    fill (.VarLenArray (.Unsigned .U1)) vlArrayMem 0 0 = [.listChild 0 [2, 0]] ∧
    hvlLen vlArrayMem 0 = 2 ∧
    hvlPtr vlArrayMem 0 = 20 ∧
    readBytes vlArrayMem (hvlPtr vlArrayMem 0)
        (hvlLen vlArrayMem 0 * (TypeDescriptor.Unsigned .U1).size) = [7, 9] ∧
    ([2, 0] : List Nat) ≠ [7, 9] := by
  decide

/-- C5: over the two-record round-trip buffer, the first cursor call
decodes `{id: 1, flag: true}`, the second `{id: 2, flag: false}`, and the
third reports zero rows. -/
theorem c5_roundtrip :
    (Hdf5Read.func roundTripBind
        (funcIter roundTripBind (Hdf5ReadInitData.new roundTripBind.dtype) 0)).2
      = [.writeScalar 0 .u32 0 [1, 0, 0, 0], .writeScalar 1 .bool 0 [1], .setLen 1] ∧
    (Hdf5Read.func roundTripBind
        (funcIter roundTripBind (Hdf5ReadInitData.new roundTripBind.dtype) 1)).2
      = [.writeScalar 0 .u32 0 [2, 0, 0, 0], .writeScalar 1 .bool 0 [0], .setLen 1] ∧
    (Hdf5Read.func roundTripBind
        (funcIter roundTripBind (Hdf5ReadInitData.new roundTripBind.dtype) 2)).2
      = [.setLen 0] ∧
    uintVal [1, 0, 0, 0] = 1 ∧ boolVal [1] = true ∧
    uintVal [2, 0, 0, 0] = 2 ∧ boolVal [0] = false := by
  decide

/-- C6: exhaustion is terminal — if the call made from state `s` reports
zero rows, the call made after any number `k` of further calls also
reports zero rows (the atomic counter only grows and the buffer and
stride are fixed). -/
theorem c6_exhaustion_idempotent (bind : Hdf5ReadBindData) (s : Hdf5ReadInitData)
    (h : rowCount (Hdf5Read.func bind s).2 = 0) (k : Nat) :
    rowCount (Hdf5Read.func bind (funcIter bind s k)).2 = 0 := by
  have hidx := funcIter_index bind s k
  have h0 : bind.data.length ≤ s.index * bind.dtype.size := by
    have hr : rowCount (Hdf5Read.func bind s).2
        = if bind.data.length ≤ s.index * bind.dtype.size then 0 else 1 :=
      rowCount_fill bind s.index s.dtype
    rw [hr] at h
    by_contra hc
    rw [if_neg hc] at h
    exact one_ne_zero h
  show rowCount (bind.fill (funcIter bind s k).index (funcIter bind s k).dtype) = 0
  rw [hidx.1, hidx.2, rowCount_fill, if_pos]
  calc bind.data.length ≤ s.index * bind.dtype.size := h0
    _ ≤ (s.index + k) * bind.dtype.size :=
      Nat.mul_le_mul_right _ (Nat.le_add_right s.index k)

theorem c6_witness :
    rowCount (Hdf5Read.func ⟨.Boolean, []⟩
      (funcIter ⟨.Boolean, []⟩ (Hdf5ReadInitData.new .Boolean) 2)).2 = 0 :=
  c6_exhaustion_idempotent ⟨.Boolean, []⟩ (Hdf5ReadInitData.new .Boolean) (by decide) 2

/-- C8: under any interleaving `ws` (the linearization order of the
workers' fetch-and-add operations on the shared counter) over a buffer of
exactly 1000 records, the calls collectively report exactly 1000 rows
once at least 1000 operations have run; the counter hands out pairwise
distinct indices, every linearized call belongs to the worker that made
it, and no call belongs to two workers — every record index is
distributed to exactly one worker. -/
theorem c8_fetch_add_distribution (bind : Hdf5ReadBindData) (dt : TypeDescriptor)
    (ws : List Nat) (hsz : 0 < bind.dtype.size)
    (hdata : bind.data.length = 1000 * bind.dtype.size) (hws : 1000 ≤ ws.length) :
    ((List.range ws.length).map (fun k => rowCount (bind.fill k dt))).sum = 1000 ∧
    (fetchAddValues ws.length).Nodup ∧
    (∀ k, k < ws.length → k ∈ workerCalls ws (ws.getD k 0)) ∧
    (∀ w1 w2 k, w1 ≠ w2 → k ∈ workerCalls ws w1 → k ∉ workerCalls ws w2) := by
  have hpoint : ∀ k, rowCount (bind.fill k dt) = if k < 1000 then 1 else 0 := by
    intro k
    rw [rowCount_fill, hdata]
    by_cases hk : k < 1000
    · rw [if_neg (fun hle => absurd (Nat.le_of_mul_le_mul_right hle hsz)
        (Nat.not_le.2 hk)), if_pos hk]
    · rw [if_pos (Nat.mul_le_mul_right _ (Nat.le_of_not_lt hk)), if_neg hk]
  refine ⟨?_, ?_, ?_, ?_⟩
  · calc ((List.range ws.length).map (fun k => rowCount (bind.fill k dt))).sum
        = ((List.range ws.length).map (fun k => if k < 1000 then 1 else 0)).sum :=
          congrArg List.sum (List.map_congr_left (fun k _ => hpoint k))
      _ = min ws.length 1000 := sum_range_indicator 1000 ws.length
      _ = 1000 := Nat.min_eq_right hws
  · exact List.nodup_range _
  · intro k hk
    simp [workerCalls, List.mem_filter, List.mem_range, hk]
  · intro w1 w2 k hne h1 h2
    simp [workerCalls, List.mem_filter, List.mem_range] at h1 h2
    omega

theorem c8_witness :
    500 ∈ workerCalls (List.replicate 500 0 ++ List.replicate 500 1)
      ((List.replicate 500 0 ++ List.replicate 500 1).getD 500 0) :=
  (c8_fetch_add_distribution ⟨.Unsigned .U1, List.replicate 1000 0⟩ (.Unsigned .U1)
      (List.replicate 500 0 ++ List.replicate 500 1) (by decide)
      (by rw [List.length_replicate]; rfl)
      (by simp only [List.length_append, List.length_replicate]; decide)).2.2.1 500
    (by simp only [List.length_append, List.length_replicate]; decide)

/-- C9: one scan call sets the chunk length to exactly 0 or exactly 1,
every scalar write lands in row slot 0 and every blob insert lands in
row slot 0, and no `set_len` ever exceeds 1 — the batch capacity is
effectively fixed at one row per call. -/
theorem c9_at_most_one_row (self : Hdf5ReadBindData) (index : Nat) (dt : TypeDescriptor) :
    (rowCount (self.fill index dt) = 0 ∨ rowCount (self.fill index dt) = 1) ∧
    (∀ c t sl b, SinkEffect.writeScalar c t sl b ∈ self.fill index dt → sl = 0) ∧
    (∀ c sl b, SinkEffect.insertBlob c sl b ∈ self.fill index dt → sl = 0) ∧
    (∀ n, SinkEffect.setLen n ∈ self.fill index dt → n ≤ 1) := by
  have hbase : ∀ e ∈ self.fill index dt,
      benignEffect e ∨ e = .setLen 0 ∨ e = .setLen 1 := by
    intro e he
    simp only [Hdf5ReadBindData.fill] at he
    split at he
    · simp at he
      exact Or.inr (Or.inl he)
    · rcases List.mem_append.1 he with hm | hm
      · exact Or.inl (fill_benign dt self.data _ 0 e hm)
      · simp at hm
        exact Or.inr (Or.inr hm)
  refine ⟨?_, ?_, ?_, ?_⟩
  · rw [rowCount_fill]
    split
    · exact Or.inl rfl
    · exact Or.inr rfl
  · intro c t sl b hm
    rcases hbase _ hm with hb | h0 | h0 <;> first
      | exact hb
      | exact SinkEffect.noConfusion h0
  · intro c sl b hm
    rcases hbase _ hm with hb | h0 | h0 <;> first
      | exact hb
      | exact SinkEffect.noConfusion h0
  · intro n hm
    rcases hbase _ hm with hb | h0 | h0
    · exact hb.elim
    · injection h0 with h
      omega
    · injection h0 with h
      omega

theorem c9_witness :
    (rowCount (Hdf5ReadBindData.fill ⟨.Unsigned .U4, [1, 0, 0, 0]⟩ 0 (.Unsigned .U4)) = 0 ∨
     rowCount (Hdf5ReadBindData.fill ⟨.Unsigned .U4, [1, 0, 0, 0]⟩ 0 (.Unsigned .U4)) = 1) ∧
    (0 : Nat) = 0 :=
  ⟨(c9_at_most_one_row ⟨.Unsigned .U4, [1, 0, 0, 0]⟩ 0 (.Unsigned .U4)).1,
   (c9_at_most_one_row ⟨.Unsigned .U4, [1, 0, 0, 0]⟩ 0 (.Unsigned .U4)).2.1 0 .u32 0
     [1, 0, 0, 0] (by decide)⟩

theorem c10_witness :
    iter_dtype (.Compound [("b", .Compound [("x", .Integer .U2, 0)] 2, 0)] 2)
      = [("b", .Smallint)] ∧
    fieldLogicalType [("x", .Tinyint), ("y", .Tinyint)]
      = .Struct [("x", .Tinyint), ("y", .Tinyint)] := by
  constructor
  · exact ((c10_singleton_nested [] [] "b" "x" (.Integer .U2) 0 0 2 2).1).trans rfl
  · exact (c10_singleton_nested [] [] "b" "x" (.Integer .U2) 0 0 2 2).2 _ (by decide)

end Hdf5Duck
